import Mathlib

/-!
Verification of the snapshot data model of metriken-exposition
(src/metriken-exposition/src/snapshot.rs).

Modelling conventions:
* `HashMap<String, String>` metadata is modelled as an association list
  `List (String × String)`; in the program the keys are unique and the
  iteration order is unspecified.
* Collecting a map into a `BTreeMap` (ascending key order, byte-wise
  lexicographic on UTF-8 `&str`, which coincides with codepoint order) is
  modelled by a stable insertion sort on the key.  Lookup in either map is
  modelled by `mget`, first match on the key; for maps with unique keys the
  `HashMap` and `BTreeMap` lookups agree, so all lookups are performed on
  the original list.
* `SystemTime` is modelled as `Int` nanoseconds relative to the Unix epoch
  (`duration_since(UNIX_EPOCH)` fails exactly on negative values);
  `Duration` is `Nat` nanoseconds, so `as_nanos()` is the identity and the
  `as u64` cast is reduction modulo `2 ^ 64`.
* A Rust panic (`expect`) is modelled by `Option.none`.
* `histogram::Histogram` is an opaque externally-defined value type,
  modelled as an opaque list of bucket counts.
-/

namespace Metriken

abbrev Metadata := List (String × String)

/-- Lookup of a key in a string map (`HashMap::get` / `BTreeMap::get`):
the value of the unique entry with that key. -/
def mget (metadata : Metadata) (k : String) : Option String :=
  (metadata.find? (fun p => p.1 == k)).map (fun p => p.2)

/-- Lexicographic order on codepoint lists; for UTF-8 strings this
coincides with the byte-wise `Ord` on Rust `&str`. -/
def charsLe : List Char → List Char → Bool
  | [], _ => true
  | _ :: _, [] => false
  | c :: cs, d :: ds =>
    if c.toNat < d.toNat then true
    else if d.toNat < c.toNat then false
    else charsLe cs ds

/-- The `Ord` on `&str` keys used by `BTreeMap`. -/
def keyLe (a b : String) : Bool := charsLe a.data b.data

/-- Insert an entry into a list already sorted by key. -/
def insertByKey (p : String × String) : Metadata → Metadata
  | [] => [p]
  | q :: qs => if keyLe p.1 q.1 then p :: q :: qs else q :: insertByKey p qs

/-- Collecting the metadata into a `BTreeMap<&str, &str>`: the entries in
ascending lexicographic key order. -/
def toSorted : Metadata → Metadata
  | [] => []
  | p :: ps => insertByKey p (toSorted ps)

/-- `let ordered = ["name", "op", "state", "direction"];` -/
def ordered : List String := ["name", "op", "state", "direction"]

/-- The initial ignore set
`["metric", "unit", "grouping_power", "max_value_power", "id"]`. -/
def ignoreBase : List String :=
  ["metric", "unit", "grouping_power", "max_value_power", "id"]

/-- The ignore set after `ignore.extend(ordered)`. -/
def ignoreAll : List String := ignoreBase ++ ordered

/-- `canonicalize_metric_name` from snapshot.rs, lines 82–126. -/
def canonicalize_metric_name (snapshot_name : String) (metadata : Metadata) :
    String :=
  match mget metadata "metric" with
  | none => snapshot_name
  | some name =>
    let sorted := toSorted metadata
    let unique1 := ordered.foldl (fun acc k =>
      match mget metadata k with
      | some v => acc ++ "/" ++ v
      | none => acc) name
    let unique2 := sorted.foldl (fun acc p =>
      if p.1 ∈ ignoreAll then acc else acc ++ "/" ++ p.2) unique1
    match mget metadata "id" with
    | some v => unique2 ++ "/" ++ v
    | none => unique2

/-- The canonicalization algorithm as §4.2 of the spec states it, for the
refinement claim: start from `metadata["metric"]`, append the dimension
values in the fixed order, then the values of the remaining keys (not in
the ignore set and not dimension keys) in ascending lexicographic key
order, then the `id` value last. -/
def canonicalizeSpec (rawName : String) (metadata : Metadata) : String :=
  match mget metadata "metric" with
  | none => rawName
  | some base =>
    let withDims := ordered.foldl (fun acc k =>
      match mget metadata k with
      | some v => acc ++ "/" ++ v
      | none => acc) base
    let remaining := (toSorted metadata).filter
      (fun p => decide ¬ (p.1 ∈ ignoreBase ∨ p.1 ∈ ordered))
    let withRest := remaining.foldl (fun acc p => acc ++ "/" ++ p.2) withDims
    match mget metadata "id" with
    | some v => withRest ++ "/" ++ v
    | none => withRest

abbrev HistogramValue := List Nat

structure Counter where
  name : String
  value : Nat
  metadata : Metadata
deriving DecidableEq

structure Gauge where
  name : String
  value : Int
  metadata : Metadata
deriving DecidableEq

structure Histogram where
  name : String
  value : HistogramValue
  metadata : Metadata
deriving DecidableEq

/-- `SystemTime`: nanoseconds relative to the Unix epoch (may be negative). -/
abbrev SystemTime := Int

/-- `Duration`: nanoseconds (non-negative). -/
abbrev Duration := Nat

structure SnapshotV1 where
  systemtime : SystemTime
  metadata : Metadata
  counters : List Counter
  gauges : List Gauge
  histograms : List Histogram
deriving DecidableEq

structure SnapshotV2 where
  systemtime : SystemTime
  duration : Duration
  metadata : Metadata
  counters : List Counter
  gauges : List Gauge
  histograms : List Histogram
deriving DecidableEq

inductive Snapshot where
  | V1 (s : SnapshotV1)
  | V2 (s : SnapshotV2)
deriving DecidableEq

namespace Snapshot

/-- `pub fn systemtime(&self) -> SystemTime` (non-mutating, `&self`). -/
def systemtime : Snapshot → SystemTime
  | V1 s => s.systemtime
  | V2 s => s.systemtime

/-- `pub fn duration(&self) -> Option<Duration>` (non-mutating, `&self`). -/
def duration : Snapshot → Option Duration
  | V1 _ => none
  | V2 s => some s.duration

/-- Pure view of the stored metadata field (for stating drain contracts). -/
def metadataOf : Snapshot → Metadata
  | V1 s => s.metadata
  | V2 s => s.metadata

/-- Pure view of the stored counters field. -/
def countersOf : Snapshot → List Counter
  | V1 s => s.counters
  | V2 s => s.counters

/-- Pure view of the stored gauges field. -/
def gaugesOf : Snapshot → List Gauge
  | V1 s => s.gauges
  | V2 s => s.gauges

/-- Pure view of the stored histograms field. -/
def histogramsOf : Snapshot → List Histogram
  | V1 s => s.histograms
  | V2 s => s.histograms

/-- `pub fn metadata(&mut self) -> HashMap<String, String>`:
`std::mem::take` returns the field and leaves the default (empty) value.
The mutation of `&mut self` is modelled by returning the updated state. -/
def metadata : Snapshot → Metadata × Snapshot
  | V1 s => (s.metadata, V1 { s with metadata := [] })
  | V2 s => (s.metadata, V2 { s with metadata := [] })

/-- `pub fn counters(&mut self) -> Vec<Counter>` (drain via `mem::take`). -/
def counters : Snapshot → List Counter × Snapshot
  | V1 s => (s.counters, V1 { s with counters := [] })
  | V2 s => (s.counters, V2 { s with counters := [] })

/-- `pub fn gauges(&mut self) -> Vec<Gauge>` (drain via `mem::take`). -/
def gauges : Snapshot → List Gauge × Snapshot
  | V1 s => (s.gauges, V1 { s with gauges := [] })
  | V2 s => (s.gauges, V2 { s with gauges := [] })

/-- `pub fn histograms(&mut self) -> Vec<Histogram>` (drain via `mem::take`). -/
def histograms : Snapshot → List Histogram × Snapshot
  | V1 s => (s.histograms, V1 { s with histograms := [] })
  | V2 s => (s.histograms, V2 { s with histograms := [] })

end Snapshot

/-- `HashedSnapshot` from snapshot.rs, lines 70–77; the `HashMap` fields are
modelled as association lists built by `hmFromList`. -/
structure HashedSnapshot where
  ts : Nat
  duration : Option Nat
  counters : List (String × Counter)
  gauges : List (String × Gauge)
  histograms : List (String × Histogram)
deriving DecidableEq

/-- `HashMap` insertion: replace the value of an existing key, otherwise add
a new entry. -/
def hmInsert {α : Type} (m : List (String × α)) (k : String) (v : α) :
    List (String × α) :=
  if (m.find? (fun p => p.1 == k)).isSome then
    m.map (fun p => if p.1 == k then (k, v) else p)
  else
    m ++ [(k, v)]

/-- `HashMap::from_iter`: insert the pairs in order, later entries
overwriting earlier ones on key collision. -/
def hmFromList {α : Type} (l : List (String × α)) : List (String × α) :=
  l.foldl (fun m p => hmInsert m p.1 p.2) []

/-- `duration_since(UNIX_EPOCH)`: errors exactly when the time is earlier
than the epoch, otherwise the non-negative nanosecond count. -/
def durationSinceEpoch (t : SystemTime) : Option Nat :=
  if t < 0 then none else some t.toNat

/-- `impl From<Snapshot> for HashedSnapshot` (snapshot.rs, lines 190–228).
The `.expect(...)` panic on a pre-epoch clock is modelled by `none`; the
`as u64` casts are reduction modulo `2 ^ 64`. -/
def snapshotToHashed (snapshot : Snapshot) : Option HashedSnapshot :=
  match durationSinceEpoch snapshot.systemtime with
  | none => none
  | some nanos =>
    let ts : Nat := nanos % 2 ^ 64
    let duration : Option Nat := snapshot.duration.map (fun x => x % 2 ^ 64)
    let (cs, snapshot) := snapshot.counters
    let (gs, snapshot) := snapshot.gauges
    let (hs, _) := snapshot.histograms
    some
      { ts := ts
        duration := duration
        counters := hmFromList
          (cs.map (fun v => (canonicalize_metric_name v.name v.metadata, v)))
        gauges := hmFromList
          (gs.map (fun v => (canonicalize_metric_name v.name v.metadata, v)))
        histograms := hmFromList
          (hs.map (fun v => (canonicalize_metric_name v.name v.metadata, v))) }

/-- The serde data model of a serialized `Snapshot`, shared by the JSON and
msgpack encodings: the `serde(untagged)` union writes the fields of the
active variant, so the wire shape is the field set with `duration` present
exactly for V2. -/
structure SnapshotWire where
  systemtime : SystemTime
  duration : Option Duration
  metadata : Metadata
  counters : List Counter
  gauges : List Gauge
  histograms : List Histogram
deriving DecidableEq

/-- Serialization of the untagged union: no explicit discriminant tag, V1
omits the `duration` field. -/
def Snapshot.toWire : Snapshot → SnapshotWire
  | .V1 s => ⟨s.systemtime, none, s.metadata, s.counters, s.gauges, s.histograms⟩
  | .V2 s =>
    ⟨s.systemtime, some s.duration, s.metadata, s.counters, s.gauges, s.histograms⟩

/-- Modelled from the spec: the decoder for the untagged union is not under
src/ (only the serde derives are); per the spec it infers V1 vs. V2 from
field presence — absence of a `duration` field implies V1. -/
def SnapshotWire.decode : SnapshotWire → Snapshot
  | ⟨t, none, m, c, g, h⟩ => .V1 ⟨t, m, c, g, h⟩
  | ⟨t, some d, m, c, g, h⟩ => .V2 ⟨t, d, m, c, g, h⟩

/-- `Snapshot::to_json` (snapshot.rs, lines 171–179), abstracted over the
underlying `serde_json::to_vec` serializer: on success push one `b'\n'`
(byte 10) onto the serialized bytes. -/
def to_json {α E : Type} (serialize : α → Except E (List Nat)) (val : α) :
    Except E (List Nat) :=
  match serialize val with
  | .error e => .error e
  | .ok res => .ok (res ++ [10])

/-- `Snapshot::to_msgpack` (snapshot.rs, lines 181–187), abstracted over the
underlying `rmp_serde::encode::to_vec` serializer: the serialized bytes,
unchanged. -/
def to_msgpack {α E : Type} (serialize : α → Except E (List Nat)) (val : α) :
    Except E (List Nat) :=
  serialize val

/-! ## Theorems -/

/-- Folding a function that skips ignored elements inline equals folding
over the filtered list. -/
theorem foldl_skip {α β : Type} (c : α → Prop) [DecidablePred c]
    (f : β → α → β) :
    ∀ (l : List α) (b : β),
      l.foldl (fun acc a => if c a then acc else f acc a) b
        = (l.filter (fun a => decide ¬ c a)).foldl f b := by
  intro l
  induction l with
  | nil => intro b; rfl
  | cons a as ih =>
    intro b
    by_cases h : c a <;> simp [List.filter_cons, h, ih]

/-- A fold is determined by the behaviour of the step function on the
elements of the list. -/
theorem foldl_congr_mem {α β : Type} (f g : β → α → β) :
    ∀ (l : List α), (∀ a ∈ l, ∀ b, f b a = g b a) →
      ∀ b, l.foldl f b = l.foldl g b := by
  intro l
  induction l with
  | nil => intro _ b; rfl
  | cons a as ih =>
    intro h b
    rw [List.foldl_cons, List.foldl_cons, h a (List.mem_cons_self a as)]
    exact ih (fun x hx b' => h x (List.mem_cons_of_mem a hx) b') _

/-- C3: for every constructed Snapshot, the first call to `counters()`
returns the full stored counter sequence in order and a second call (on the
mutated snapshot) returns the empty sequence; likewise for `gauges()`,
`histograms()` and `metadata()`. -/
theorem drain_first_full_then_empty (s : Snapshot) :
    (s.counters).1 = s.countersOf ∧ (((s.counters).2).counters).1 = []
      ∧ (s.gauges).1 = s.gaugesOf ∧ (((s.gauges).2).gauges).1 = []
      ∧ (s.histograms).1 = s.histogramsOf
      ∧ (((s.histograms).2).histograms).1 = []
      ∧ (s.metadata).1 = s.metadataOf ∧ (((s.metadata).2).metadata).1 = [] := by
  cases s <;>
    simp [Snapshot.counters, Snapshot.gauges, Snapshot.histograms,
      Snapshot.metadata, Snapshot.countersOf, Snapshot.gaugesOf,
      Snapshot.histogramsOf, Snapshot.metadataOf]

/-- C6: `duration()` returns `none` on a V1 snapshot and `some d` on a V2
snapshot built with duration `d`; `systemtime()` returns the stored capture
instant for either variant.  Both accessors take `&self` in the source and
are modelled as pure functions, so they do not modify the snapshot. -/
theorem duration_systemtime_accessors (v1 : SnapshotV1) (v2 : SnapshotV2) :
    (Snapshot.V1 v1).duration = none
      ∧ (Snapshot.V2 v2).duration = some v2.duration
      ∧ (Snapshot.V1 v1).systemtime = v1.systemtime
      ∧ (Snapshot.V2 v2).systemtime = v2.systemtime :=
  ⟨rfl, rfl, rfl, rfl⟩

/-- C7: each drain accessor empties only its own field: the systemtime, the
duration and the three other drainable fields keep their values. -/
theorem drain_frame_effect (s : Snapshot) :
    ((s.metadata).2.systemtime = s.systemtime
        ∧ (s.metadata).2.duration = s.duration
        ∧ (s.metadata).2.countersOf = s.countersOf
        ∧ (s.metadata).2.gaugesOf = s.gaugesOf
        ∧ (s.metadata).2.histogramsOf = s.histogramsOf)
      ∧ ((s.counters).2.systemtime = s.systemtime
        ∧ (s.counters).2.duration = s.duration
        ∧ (s.counters).2.metadataOf = s.metadataOf
        ∧ (s.counters).2.gaugesOf = s.gaugesOf
        ∧ (s.counters).2.histogramsOf = s.histogramsOf)
      ∧ ((s.gauges).2.systemtime = s.systemtime
        ∧ (s.gauges).2.duration = s.duration
        ∧ (s.gauges).2.metadataOf = s.metadataOf
        ∧ (s.gauges).2.countersOf = s.countersOf
        ∧ (s.gauges).2.histogramsOf = s.histogramsOf)
      ∧ ((s.histograms).2.systemtime = s.systemtime
        ∧ (s.histograms).2.duration = s.duration
        ∧ (s.histograms).2.metadataOf = s.metadataOf
        ∧ (s.histograms).2.countersOf = s.countersOf
        ∧ (s.histograms).2.gaugesOf = s.gaugesOf) := by
  cases s <;>
    simp [Snapshot.counters, Snapshot.gauges, Snapshot.histograms,
      Snapshot.metadata, Snapshot.countersOf, Snapshot.gaugesOf,
      Snapshot.histogramsOf, Snapshot.metadataOf, Snapshot.systemtime,
      Snapshot.duration]

/-- C5: projecting a snapshot whose systemtime is earlier than the Unix
epoch panics (modelled as `none`) instead of producing a wrapped or
negative timestamp; for a systemtime at or after the epoch the projection
does not fail on the timestamp conversion. -/
theorem hashed_projection_clock (s : Snapshot) :
    (s.systemtime < 0 → snapshotToHashed s = none)
      ∧ (0 ≤ s.systemtime → (snapshotToHashed s).isSome = true) := by
  constructor
  · intro h
    simp [snapshotToHashed, durationSinceEpoch, h]
  · intro h
    simp [snapshotToHashed, durationSinceEpoch, not_lt.mpr h]

/-- Witness for C5 at a pre-epoch and an at-epoch snapshot. -/
theorem hashed_projection_clock_witness :
    snapshotToHashed (.V1 ⟨-1, [], [], [], []⟩) = none
      ∧ (snapshotToHashed (.V1 ⟨0, [], [], [], []⟩)).isSome = true :=
  ⟨(hashed_projection_clock (.V1 ⟨-1, [], [], [], []⟩)).1 (by decide),
    (hashed_projection_clock (.V1 ⟨0, [], [], [], []⟩)).2 (by decide)⟩

/-- C9: for a systemtime at or after the epoch, the projected `ts` is the
nanoseconds-since-epoch count reduced modulo `2 ^ 64` (the `as u64` cast),
and the projected duration, when present, is likewise reduced modulo
`2 ^ 64`; in particular an out-of-range count wraps silently instead of
failing. -/
theorem hashed_projection_wraps (s : Snapshot) (h : 0 ≤ s.systemtime) :
    (snapshotToHashed s).map HashedSnapshot.ts
        = some (s.systemtime.toNat % 2 ^ 64)
      ∧ (snapshotToHashed s).map HashedSnapshot.duration
        = some (s.duration.map (fun d => d % 2 ^ 64)) := by
  constructor <;>
    simp [snapshotToHashed, durationSinceEpoch, not_lt.mpr h]

/-- Witness for C9 at a systemtime and duration above `2 ^ 64` nanoseconds:
both wrap (to 5 and 7 nanoseconds) and the projection still succeeds. -/
theorem hashed_projection_wraps_witness :
    (snapshotToHashed (.V2 ⟨2 ^ 64 + 5, 2 ^ 64 + 7, [], [], [], []⟩)).map
        HashedSnapshot.ts = some 5
      ∧ (snapshotToHashed (.V2 ⟨2 ^ 64 + 5, 2 ^ 64 + 7, [], [], [], []⟩)).map
        HashedSnapshot.duration = some (some 7) :=
  ⟨((hashed_projection_wraps (.V2 ⟨2 ^ 64 + 5, 2 ^ 64 + 7, [], [], [], []⟩)
      (by decide)).1).trans (by decide),
    ((hashed_projection_wraps (.V2 ⟨2 ^ 64 + 5, 2 ^ 64 + 7, [], [], [], []⟩)
      (by decide)).2).trans (by decide)⟩

/-- C8: when the underlying serializer succeeds, the text encoder's output
is exactly the serialized bytes followed by one newline byte (10), and the
binary encoder's output is exactly the serialized bytes with no framing. -/
theorem encoder_framing {α E : Type} (serialize : α → Except E (List Nat))
    (val : α) (bytes : List Nat) (h : serialize val = .ok bytes) :
    to_json serialize val = .ok (bytes ++ [10])
      ∧ to_msgpack serialize val = serialize val := by
  constructor
  · simp [to_json, h]
  · rfl

/-- Witness for C8 at a concrete serializer and value. -/
theorem encoder_framing_witness :
    to_json (fun n : Nat => (Except.ok [n] : Except Unit (List Nat))) 3
        = .ok [3, 10]
      ∧ to_msgpack (fun n : Nat => (Except.ok [n] : Except Unit (List Nat))) 3
        = (fun n : Nat => (Except.ok [n] : Except Unit (List Nat))) 3 :=
  encoder_framing (fun n : Nat => (Except.ok [n] : Except Unit (List Nat)))
    3 [3] rfl

/-- C2: serializing a snapshot of either variant to the untagged wire shape
(shared by the JSON and msgpack encodings) and decoding it by field
presence reconstructs a snapshot with identical systemtime, identical
duration (`none` for V1, the same `some` value for V2) and identical
counter, gauge and histogram record contents — indeed the same snapshot,
with the variant inferred from the presence of the duration field. -/
theorem snapshot_wire_round_trip (s : Snapshot) :
    (s.toWire.decode).systemtime = s.systemtime
      ∧ (s.toWire.decode).duration = s.duration
      ∧ (s.toWire.decode).countersOf = s.countersOf
      ∧ (s.toWire.decode).gaugesOf = s.gaugesOf
      ∧ (s.toWire.decode).histogramsOf = s.histogramsOf
      ∧ s.toWire.decode = s := by
  cases s <;>
    simp [Snapshot.toWire, SnapshotWire.decode, Snapshot.systemtime,
      Snapshot.duration, Snapshot.countersOf, Snapshot.gaugesOf,
      Snapshot.histogramsOf]

/-- C1: `canonicalize_metric_name` follows the spec's algorithm exactly:
return the raw name when `metric` is absent; otherwise start from
`metadata["metric"]`, append `"/" + value` for each present dimension key
in the order name, op, state, direction, then for every remaining key not
in the ignore set and not a dimension key in ascending lexicographic key
order, and finally for `id` if present. -/
theorem canonicalize_matches_spec (snapshot_name : String)
    (metadata : Metadata) :
    canonicalize_metric_name snapshot_name metadata
      = canonicalizeSpec snapshot_name metadata := by
  unfold canonicalize_metric_name canonicalizeSpec
  cases hm : mget metadata "metric" with
  | none => rfl
  | some base =>
    simp only
    rw [foldl_skip (fun p : String × String => p.1 ∈ ignoreAll)
      (fun acc p => acc ++ "/" ++ p.2) (toSorted metadata)]
    have hpred : (fun p : String × String => decide ¬ (p.1 ∈ ignoreAll))
        = fun p : String × String =>
            decide ¬ (p.1 ∈ ignoreBase ∨ p.1 ∈ ordered) := by
      funext p
      simp only [decide_eq_decide, ignoreAll, List.mem_append]
    rw [hpred]

/-- C10: with a `metric` key present, the canonical name is independent of
the raw snapshot name, and depends on the remaining (non-dimension,
non-ignored) metadata entries only through their value sequence in
ascending key order: two metadata maps that agree on every dimension and
ignore-set key and whose remaining entries, sorted by key, carry the same
value sequence (possibly under different key names) canonicalize
identically, for any two raw names. -/
theorem canonicalize_value_determined (n1 n2 : String) (md1 md2 : Metadata)
    (hsome : (mget md1 "metric").isSome = true)
    (hagree : ∀ k ∈ ignoreAll, mget md1 k = mget md2 k)
    (hvals :
      ((toSorted md1).filter (fun p => decide ¬ (p.1 ∈ ignoreAll))).map
          (fun p => p.2)
        = ((toSorted md2).filter (fun p => decide ¬ (p.1 ∈ ignoreAll))).map
          (fun p => p.2)) :
    canonicalize_metric_name n1 md1 = canonicalize_metric_name n2 md2 := by
  obtain ⟨base, hbase⟩ := Option.isSome_iff_exists.mp hsome
  have hbase2 : mget md2 "metric" = some base := by
    rw [← hagree "metric" (by decide), hbase]
  unfold canonicalize_metric_name
  rw [hbase, hbase2]
  simp only
  have hdim :
      ordered.foldl (fun acc k =>
          match mget md1 k with
          | some v => acc ++ "/" ++ v
          | none => acc) base
        = ordered.foldl (fun acc k =>
          match mget md2 k with
          | some v => acc ++ "/" ++ v
          | none => acc) base := by
    apply foldl_congr_mem
    intro k hk b
    rw [hagree k (List.mem_append_right ignoreBase hk)]
  rw [hdim]
  rw [foldl_skip (fun p : String × String => p.1 ∈ ignoreAll)
    (fun acc p => acc ++ "/" ++ p.2) (toSorted md1)]
  rw [foldl_skip (fun p : String × String => p.1 ∈ ignoreAll)
    (fun acc p => acc ++ "/" ++ p.2) (toSorted md2)]
  have hrest : ∀ b : String,
      List.foldl (fun acc p => acc ++ "/" ++ p.2) b
          ((toSorted md1).filter (fun p => decide ¬ (p.1 ∈ ignoreAll)))
        = List.foldl (fun acc p => acc ++ "/" ++ p.2) b
          ((toSorted md2).filter (fun p => decide ¬ (p.1 ∈ ignoreAll))) := by
    intro b
    rw [← List.foldl_map (fun p : String × String => p.2)
      (fun acc v => acc ++ "/" ++ v),
      ← List.foldl_map (fun p : String × String => p.2)
      (fun acc v => acc ++ "/" ++ v),
      hvals]
  simp only [hrest, hagree "id" (by decide)]

/-- Witness for C10: different raw names, different insertion orders and a
different remaining key name carrying the same value canonicalize to the
same string. -/
theorem canonicalize_value_determined_witness :
    canonicalize_metric_name "x"
        [("metric", "cpu"), ("op", "busy"), ("iface", "eth0")]
      = canonicalize_metric_name "y"
        [("op", "busy"), ("metric", "cpu"), ("card", "eth0")] :=
  canonicalize_value_determined "x" "y"
    [("metric", "cpu"), ("op", "busy"), ("iface", "eth0")]
    [("op", "busy"), ("metric", "cpu"), ("card", "eth0")]
    (by decide) (by decide) (by decide)

/-- The counters map of a successful projection is the hash map built from
the drained counter sequence keyed by canonical name. -/
theorem snapshotToHashed_counters (s : Snapshot) (h : 0 ≤ s.systemtime) :
    (snapshotToHashed s).map HashedSnapshot.counters
      = some (hmFromList (s.countersOf.map
          (fun v => (canonicalize_metric_name v.name v.metadata, v)))) := by
  cases s with
  | V1 v =>
    simp only [Snapshot.systemtime] at h
    simp [snapshotToHashed, durationSinceEpoch, Snapshot.systemtime,
      Snapshot.duration, if_neg (not_lt.mpr h), Snapshot.counters,
      Snapshot.gauges, Snapshot.histograms, Snapshot.countersOf]
  | V2 v =>
    simp only [Snapshot.systemtime] at h
    simp [snapshotToHashed, durationSinceEpoch, Snapshot.systemtime,
      Snapshot.duration, if_neg (not_lt.mpr h), Snapshot.counters,
      Snapshot.gauges, Snapshot.histograms, Snapshot.countersOf]

/-- C4: projecting a snapshot whose counter sequence holds two records that
canonicalize to the same name yields exactly one entry in the counters
mapping under that name, namely the later record of the input order. -/
theorem hashed_collision_last_wins (s : Snapshot) (c1 c2 : Counter)
    (h : 0 ≤ s.systemtime) (hc : s.countersOf = [c1, c2])
    (hk : canonicalize_metric_name c1.name c1.metadata
        = canonicalize_metric_name c2.name c2.metadata) :
    (snapshotToHashed s).map HashedSnapshot.counters
      = some [(canonicalize_metric_name c2.name c2.metadata, c2)] := by
  rw [snapshotToHashed_counters s h, hc]
  simp [hmFromList, hmInsert, hk]

/-- Witness for C4: two counters with distinct raw names and values whose
metadata canonicalize both to "cpu"; the projection keeps only the later
one. -/
theorem hashed_collision_last_wins_witness :
    (snapshotToHashed (.V1 ⟨0, [],
        [⟨"a", 1, [("metric", "cpu")]⟩, ⟨"b", 2, [("metric", "cpu")]⟩],
        [], []⟩)).map HashedSnapshot.counters
      = some [("cpu", ⟨"b", 2, [("metric", "cpu")]⟩)] :=
  (hashed_collision_last_wins
      (.V1 ⟨0, [],
        [⟨"a", 1, [("metric", "cpu")]⟩, ⟨"b", 2, [("metric", "cpu")]⟩],
        [], []⟩)
      ⟨"a", 1, [("metric", "cpu")]⟩ ⟨"b", 2, [("metric", "cpu")]⟩
      (by decide) (by decide) (by decide)).trans (by decide)

end Metriken
